import Mathlib

/-!
Verification of the ShopSmart backend prediction endpoint
(`src/backend/app.py`, function `predict`).

Modelling conventions:
* Python floats are modelled as `ℚ` (all operations the endpoint performs on
  scores are exact: `float(p)` applied to a Python float is the identity, and
  pixel normalization is an exact division by 255).
* `numpy` arrays are modelled as nested lists.
* The request body (the parsed JSON object) is an association list of fields.
* Exceptions are modelled with `Except String`: the `try/except` of the handler
  boundary converts an `Except.error` into an HTTP 500 response and an
  `Except.ok` into an HTTP 200 response, mirroring lines 46-100 of the source.
* The external image library (PIL) and the model are parameters of the
  handler: `parse` stands for `Image.open(...).convert("RGB").resize((224,224))`
  and `model` stands for `model.predict`; either may raise (return `.error`).
-/

namespace ShopSmart

/-- The fixed label list `class_labels` from `app.py`. -/
def class_labels : List String :=
  ["Comfort_fabric_conditioner",
   "Prima_noodles",
   "Raigam_soya_meat",
   "Safe_guard_soap",
   "Signal_toothbrush",
   "Vim_dishwash_bar"]

/-- A decoded image: rows of pixels, each pixel a list of channel bytes. -/
abbrev Image := List (List (List Nat))

/-- A 3-d tensor of rationals (one image after normalization). -/
abbrev Tensor3 := List (List (List ℚ))

/-- A 4-d tensor: a batch of 3-d tensors (`np.expand_dims(x, 0)` output). -/
abbrev Tensor4 := List Tensor3

/-- A value occurring in the model output: a numpy array (batch of score
rows), or something that is not a numpy array. -/
inductive PVal where
  | ndarray (rows : List (List ℚ))
  | other
deriving DecidableEq

/-- The raw result of `model.predict`: either a mapping from output names to
values (the `TFSMLayer` dict output) or a bare value. -/
inductive RawPred where
  | map (entries : List (String × PVal))
  | direct (v : PVal)
deriving DecidableEq

/-- A JSON value stored in a request field: a string, or a non-string value
together with its Python truthiness. -/
inductive JVal where
  | jstr (s : String)
  | jother (truthy : Bool)
deriving DecidableEq

/-- A parsed JSON request body: an association list of fields. -/
structure Request where
  fields : List (String × JVal)
deriving DecidableEq

/-- The body of an HTTP response produced by the handler. -/
inductive Body where
  | predictions (entries : List (String × ℚ))
  | error (msg : String)
deriving DecidableEq

/-- An HTTP response: status code and JSON body. -/
structure Response where
  status : Nat
  body : Body
deriving DecidableEq

/-- `data.get(k)`: first binding of `k` in the parsed JSON object. -/
def getField (req : Request) (k : String) : Option JVal :=
  match req.fields.find? (fun f => f.1 = k) with
  | none => none
  | some f => some f.2

/-- `preds.get("output_0")` on the model-output mapping. -/
def dictGet (k : String) : List (String × PVal) → Option PVal
  | [] => none
  | e :: es => if e.1 = k then some e.2 else dictGet k es

/-! ### The data-URI prefix strip (line 59)

`re.sub("^data:image/.+;base64,", "", image_data)`: an anchored match of the
literal `data:image/`, then a greedy `.+` (one or more characters other than
a newline), then the literal `;base64,`; on a match the matched prefix is
removed, otherwise the string is unchanged.  Greedy backtracking means the
`.+` extends to the last position (within the first newline-free stretch) at
which `;base64,` matches. -/

/-- The chars of the literal `;base64,`. -/
def markerChars : List Char := [';', 'b', 'a', 's', 'e', '6', '4', ',']

/-- The chars of the literal `data:image/`. -/
def headChars : List Char := ['d', 'a', 't', 'a', ':', 'i', 'm', 'a', 'g', 'e', '/']

/-- Does `pat` occur at the head of `l`? -/
def leadMatch : List Char → List Char → Bool
  | [], _ => true
  | _ :: _, [] => false
  | p :: ps, c :: cs => p = c && leadMatch ps cs

/-- Try to match the literal `;base64,` at this position; on success return
the rest of the string after it. -/
def tryMarker (l : List Char) : Option (List Char) :=
  if leadMatch markerChars l then some (l.drop 8) else none

/-- Greedy continuation of `.+;base64,` at position `l`, at least one `.`
char already consumed: prefer to extend `.+` by one more non-newline char
(recursing, so deeper marker positions are tried first), and only on failure
try the `;base64,` literal at the current position. -/
def matchRest : List Char → Option (List Char)
  | [] => none
  | c :: cs =>
      match (if c = '\n' then none else matchRest cs) with
      | some r => some r
      | none => tryMarker (c :: cs)

/-- `re.sub("^data:image/.+;base64,", "", s)` on the character list: match
the literal `data:image/`, then at least one non-newline character (the
mandatory first char of `.+`), then the greedy continuation `matchRest`; on
failure the string is returned unchanged. -/
def cleanChars (cs : List Char) : List Char :=
  if leadMatch headChars cs then
    match cs.drop 11 with
    | [] => cs
    | c :: rest =>
        if c = '\n' then cs
        else
          match matchRest rest with
          | some r => r
          | none => cs
  else cs

/-- `re.sub("^data:image/.+;base64,", "", s)`. -/
def cleanData (s : String) : String :=
  String.mk (cleanChars s.data)

/-! ### Base64 decoding (line 60)

Modelled from the spec: `base64.b64decode` is an external library call; per
the spec it "decodes the base64 payload into raw bytes" and "fails with
`DecodeError` if the string is not valid base64".  We model the documented
default behaviour (`validate=False`): characters outside the standard
alphabet and `=` are discarded, the remaining string must be data characters
followed by at most two `=` pads with total length a multiple of four, and
each group of base64 digits contributes its bytes. -/

/-- Is `c` in the standard base64 alphabet? -/
def isB64Char (c : Char) : Bool :=
  (('A' ≤ c) && (c ≤ 'Z')) || (('a' ≤ c) && (c ≤ 'z')) ||
  (('0' ≤ c) && (c ≤ '9')) || (c = '+') || (c = '/')

/-- The 6-bit value of a base64 digit. -/
def b64val (c : Char) : Nat :=
  if ('A' ≤ c) && (c ≤ 'Z') then c.toNat - 65
  else if ('a' ≤ c) && (c ≤ 'z') then c.toNat - 97 + 26
  else if ('0' ≤ c) && (c ≤ '9') then c.toNat - 48 + 52
  else if c = '+' then 62
  else 63

/-- Decode a run of base64 digits (padding already stripped) into bytes. -/
def decodeQuads : List Char → List Nat
  | a :: b :: c :: d :: rest =>
      let n := b64val a * 262144 + b64val b * 4096 + b64val c * 64 + b64val d
      n / 65536 :: n / 256 % 256 :: n % 256 :: decodeQuads rest
  | [a, b] => [(b64val a * 64 + b64val b) / 16]
  | [a, b, c] =>
      let n := b64val a * 4096 + b64val b * 64 + b64val c
      [n / 1024, n / 4 % 256]
  | _ => []

/-- Modelled from the spec: `base64.b64decode(s)` with default
`validate=False` — non-alphabet characters are discarded, then the string
must be base64 digits followed by at most two `=` pads, with total length a
multiple of 4; otherwise a `binascii.Error` is raised. -/
def b64decode (s : String) : Except String (List Nat) :=
  let kept := s.data.filter (fun c => isB64Char c || c = '=')
  let ddata := kept.takeWhile (fun c => c ≠ '=')
  let pad := kept.dropWhile (fun c => c ≠ '=')
  if pad.all (fun c => c = '=') && decide (pad.length ≤ 2) &&
      decide ((ddata.length + pad.length) % 4 = 0) then
    .ok (decodeQuads ddata)
  else
    .error "Invalid base64-encoded string"

/-! ### Image normalization (lines 63-65)

`x = np.array(img, dtype=np.float32) / 255.0` and `x = np.expand_dims(x, 0)`. -/

/-- `np.array(img) / 255.0`: every channel byte divided by 255. -/
def normalizeImage (img : Image) : Tensor3 :=
  img.map (fun row => row.map (fun px => px.map (fun v : ℕ => (v : ℚ) / 255)))

/-- The full preprocessing of a decoded image: normalize then add the
leading batch dimension. -/
def preprocess (img : Image) : Tensor4 :=
  [normalizeImage img]

/-! ### Prediction postprocessing (lines 72-96) -/

/-- Lines 72-79: resolve the raw model output to the value that will be used
as the score array.  A mapping is looked up at key `output_0` (error if
absent, message from line 77); a non-mapping is used directly. -/
def resolvePreds : RawPred → Except String PVal
  | .map entries =>
      match dictGet "output_0" entries with
      | none => .error "Missing \x27output_0\x27 in prediction"
      | some v => .ok v
  | .direct v => .ok v

/-- Lines 81-83: the resolved value must be a numpy array. -/
def toArray : PVal → Except String (List (List ℚ))
  | .ndarray rows => .ok rows
  | .other => .error "Invalid prediction output"

/-- Line 85: `preds_array[0]` — the first batch row; `IndexError` on an
empty array. -/
def firstRow : List (List ℚ) → Except String (List ℚ)
  | [] => .error "index 0 is out of bounds for axis 0 with size 0"
  | r :: _ => .ok r

/-- Lines 88-91 with the running index made explicit: pair score number `i`
with `class_labels[i]`; an index past the end of the label list raises
`IndexError` (the message of list indexing in Python). -/
def formatFrom (i : Nat) : List ℚ → Except String (List (String × ℚ))
  | [] => .ok []
  | p :: ps =>
      match class_labels.get? i with
      | none => .error "list index out of range"
      | some l =>
          match formatFrom (i + 1) ps with
          | .error e => .error e
          | .ok es => .ok ((l, p) :: es)

/-- Lines 88-91: the list comprehension over `enumerate(preds_list)`. -/
def formatEntries (scores : List ℚ) : Except String (List (String × ℚ)) :=
  formatFrom 0 scores

/-- The descending-probability order used by line 94. -/
def descRel (a b : String × ℚ) : Prop := b.2 ≤ a.2

instance : DecidableRel descRel := fun a b => inferInstanceAs (Decidable (b.2 ≤ a.2))

instance : IsTotal (String × ℚ) descRel := ⟨fun a b => le_total b.2 a.2⟩

instance : IsTrans (String × ℚ) descRel := ⟨fun _ _ _ h h2 => le_trans h2 h⟩

/-- Line 94: `results.sort(key=lambda x: x["probability"], reverse=True)`,
a stable sort by probability descending, modelled by insertion sort (which
is extensionally equal to any stable sort for a total preorder). -/
def sortDesc (es : List (String × ℚ)) : List (String × ℚ) :=
  es.insertionSort descRel

/-- Lines 88-94 composed: label the scores, then sort descending. -/
def formatPredictions (scores : List ℚ) : Except String (List (String × ℚ)) :=
  match formatEntries scores with
  | .error e => .error e
  | .ok es => .ok (sortDesc es)

/-- Lines 72-96: from raw model output to the sorted prediction list. -/
def processPreds (preds : RawPred) : Except String (List (String × ℚ)) :=
  match resolvePreds preds with
  | .error e => .error e
  | .ok v =>
      match toArray v with
      | .error e => .error e
      | .ok rows =>
          match firstRow rows with
          | .error e => .error e
          | .ok row => formatPredictions row

/-! ### The request handler (lines 46-100) -/

/-- Lines 54-56: read the `image_data` field; `if not image_data` raises
`ValueError("Missing image_data")` on an absent field, on an empty string,
and on any other falsy value; a truthy non-string later makes `re.sub`
raise a `TypeError`. -/
def getImageData (req : Request) : Except String String :=
  match getField req "image_data" with
  | none => .error "Missing image_data"
  | some (.jstr s) => if s = "" then .error "Missing image_data" else .ok s
  | some (.jother truthy) =>
      if truthy then .error "expected string or bytes-like object"
      else .error "Missing image_data"

/-- Lines 59-65: strip the data-URI prefix, base64-decode, parse the bytes
as an image through the external library `parse`, normalize and add the
batch dimension. -/
def decodeToTensor (parse : List Nat → Except String Image) (s : String) :
    Except String Tensor4 :=
  match b64decode (cleanData s) with
  | .error e => .error e
  | .ok bytes =>
      match parse bytes with
      | .error e => .error e
      | .ok img => .ok (preprocess img)

/-- The body of the `try` block of `predict` (lines 48-96). -/
def predictPipeline (parse : List Nat → Except String Image)
    (model : Tensor4 → Except String RawPred) (req : Request) :
    Except String (List (String × ℚ)) :=
  match getImageData req with
  | .error e => .error e
  | .ok image_data =>
      match decodeToTensor parse image_data with
      | .error e => .error e
      | .ok x =>
          match model x with
          | .error e => .error e
          | .ok preds => processPreds preds

/-- The whole handler (lines 46-100): a successful pipeline returns HTTP 200
with the predictions; any error is caught at the boundary and returned as
HTTP 500 with a JSON error body. -/
def predict (parse : List Nat → Except String Image)
    (model : Tensor4 → Except String RawPred) (req : Request) : Response :=
  match predictPipeline parse model req with
  | .ok results => ⟨200, .predictions results⟩
  | .error e => ⟨500, .error e⟩

/-! ## Well-formedness predicates used by the claims -/

/-- What PIL guarantees about the decoded image (modelled from the spec:
`Image.open(...).convert("RGB").resize((224, 224))` yields a 224x224 image
with three channel bytes per pixel, each in `[0, 255]`). -/
def ImgWF (img : Image) : Prop :=
  img.length = 224 ∧ ∀ row ∈ img, row.length = 224 ∧
    ∀ px ∈ row, px.length = 3 ∧ ∀ v ∈ px, v ≤ 255

/-- The decoder postcondition claimed by the spec: shape `(1, 224, 224, 3)`
and every value in `[0, 1]`. -/
def TensorWF (t : Tensor4) : Prop :=
  t.length = 1 ∧ ∀ a ∈ t, a.length = 224 ∧ ∀ row ∈ a, row.length = 224 ∧
    ∀ px ∈ row, px.length = 3 ∧ ∀ q ∈ px, 0 ≤ q ∧ q ≤ 1

/-- The number of prediction entries carried by a response. -/
def predCount (r : Response) : Nat :=
  match r.body with
  | .predictions es => es.length
  | .error _ => 0

/-- Is the response body an error body? -/
def respErr (r : Response) : Bool :=
  match r.body with
  | .predictions _ => false
  | .error _ => true

/-- Does `pat` occur as a contiguous substring of `l`? -/
def hasSub (pat : List Char) : List Char → Bool
  | [] => leadMatch pat []
  | c :: cs => leadMatch pat (c :: cs) || hasSub pat cs

/-! ## Helper lemmas -/

theorem formatFrom_ok (scores : List ℚ) : ∀ i : Nat, i + scores.length ≤ 6 →
    formatFrom i scores = .ok ((class_labels.drop i).zip scores) := by
  induction scores with
  | nil =>
      intro i h
      simp [formatFrom, List.zip_nil_right]
  | cons p ps ih =>
      intro i h
      simp only [List.length_cons] at h
      have hi : i < class_labels.length := by
        have : class_labels.length = 6 := rfl
        omega
      simp only [formatFrom, List.get?_eq_getElem?, List.getElem?_eq_getElem hi]
      rw [ih (i + 1) (by omega)]
      rw [List.drop_eq_getElem_cons hi, List.zip_cons_cons]

theorem formatFrom_oob (scores : List ℚ) : ∀ i : Nat, i ≤ 6 → 6 < i + scores.length →
    formatFrom i scores = .error "list index out of range" := by
  induction scores with
  | nil =>
      intro i h1 h2
      simp only [List.length_nil] at h2
      omega
  | cons p ps ih =>
      intro i h1 h2
      simp only [List.length_cons] at h2
      have hlen : class_labels.length = 6 := rfl
      by_cases hi : i < 6
      · have hi2 : i < class_labels.length := by omega
        simp only [formatFrom, List.get?_eq_getElem?, List.getElem?_eq_getElem hi2]
        rw [ih (i + 1) (by omega) (by omega)]
      · have hnone : class_labels.get? i = none := by
          rw [List.get?_eq_getElem?]
          exact List.getElem?_eq_none (by omega)
        simp only [formatFrom, hnone]

theorem filter_orderedInsert (p : ℚ) (a : String × ℚ) (m : List (String × ℚ)) :
    (m.orderedInsert descRel a).filter (fun e => decide (e.2 = p)) =
      if a.2 = p then a :: m.filter (fun e => decide (e.2 = p))
      else m.filter (fun e => decide (e.2 = p)) := by
  induction m with
  | nil =>
      by_cases ha : a.2 = p <;> simp [List.orderedInsert, ha]
  | cons b m ih =>
      rw [List.orderedInsert]
      by_cases hab : descRel a b
      · rw [if_pos hab]
        by_cases ha : a.2 = p <;> by_cases hb : b.2 = p <;>
          simp [ha, hb, List.filter_cons]
      · rw [if_neg hab]
        have hlt : a.2 < b.2 := not_le.mp hab
        by_cases ha : a.2 = p
        · have hb : ¬ b.2 = p := by
            rw [← ha]
            exact ne_of_gt hlt
          simp [List.filter_cons, ha, hb, ih]
        · by_cases hb : b.2 = p <;> simp [List.filter_cons, ha, hb, ih]

/-- Stability of the descending sort, stated through filters: the entries
holding any fixed probability `p` keep their relative order. -/
theorem filter_sortDesc (p : ℚ) (l : List (String × ℚ)) :
    (sortDesc l).filter (fun e => decide (e.2 = p)) =
      l.filter (fun e => decide (e.2 = p)) := by
  induction l with
  | nil => rfl
  | cons a l ih =>
      rw [sortDesc] at ih ⊢
      rw [List.insertionSort, filter_orderedInsert]
      by_cases ha : a.2 = p <;> simp [List.filter_cons, ha, ih]

theorem leadMatch_append (p l : List Char) : leadMatch p (p ++ l) = true := by
  induction p with
  | nil => rfl
  | cons c cs ih => simp [leadMatch, ih]

theorem leadMatch_iff : ∀ (p l : List Char), leadMatch p l = true ↔ ∃ t, l = p ++ t
  | [], l => by simp [leadMatch]
  | c :: cs, [] => by simp [leadMatch]
  | c :: cs, d :: ds => by
      rw [leadMatch, Bool.and_eq_true, decide_eq_true_eq, leadMatch_iff cs ds]
      constructor
      · rintro ⟨rfl, t, rfl⟩
        exact ⟨t, rfl⟩
      · rintro ⟨t, h⟩
        injection h with h1 h2
        exact ⟨h1.symm, t, h2⟩

/-- Positions after the current one never host the marker when no semicolon
occurs: the continuation fails. -/
theorem matchRest_none (l : List Char) (h : ∀ c ∈ l, c ≠ ';') :
    matchRest l = none := by
  induction l with
  | nil => rfl
  | cons c cs ih =>
      have htm : tryMarker (c :: cs) = none := by
        rw [tryMarker, if_neg]
        intro hlm
        rw [leadMatch_iff] at hlm
        obtain ⟨t, ht⟩ := hlm
        simp only [markerChars, List.cons_append] at ht
        injection ht with h1 _
        exact h c (List.mem_cons_self _ _) h1
      have hinner : (if c = '\n' then none else matchRest cs) =
          (none : Option (List Char)) := by
        split
        · rfl
        · exact ih (fun c2 hc2 => h c2 (List.mem_cons_of_mem _ hc2))
      rw [matchRest, hinner, htm]

/-- If a marker occurrence is reachable through non-newline characters, the
greedy continuation succeeds (with some result). -/
theorem matchRest_isSome (B : List Char) :
    ∀ A : List Char, (∀ c ∈ A, c ≠ '\n') →
      ∃ r, matchRest (A ++ markerChars ++ B) = some r := by
  intro A
  induction A with
  | nil =>
      intro _
      rw [List.nil_append]
      cases hm : matchRest (['b', 'a', 's', 'e', '6', '4', ','] ++ B) with
      | some r =>
          refine ⟨r, ?_⟩
          show matchRest (';' :: (['b', 'a', 's', 'e', '6', '4', ','] ++ B)) = some r
          rw [matchRest, if_neg (show ¬ (';' = '\n') by decide), hm]
      | none =>
          refine ⟨B, ?_⟩
          have hlmB : leadMatch markerChars
              (';' :: (['b', 'a', 's', 'e', '6', '4', ','] ++ B)) = true :=
            leadMatch_append markerChars B
          have hdropB : List.drop 8 (';' :: (['b', 'a', 's', 'e', '6', '4', ','] ++ B)) = B :=
            List.drop_left markerChars B
          show matchRest (';' :: (['b', 'a', 's', 'e', '6', '4', ','] ++ B)) = some B
          rw [matchRest, if_neg (show ¬ (';' = '\n') by decide), hm]
          show tryMarker (';' :: (['b', 'a', 's', 'e', '6', '4', ','] ++ B)) = some B
          rw [tryMarker, if_pos hlmB, hdropB]
  | cons a A2 ih =>
      intro hA
      have ha : ¬ (a = '\n') := hA a (List.mem_cons_self _ _)
      obtain ⟨r, hr⟩ := ih (fun c hc => hA c (List.mem_cons_of_mem _ hc))
      refine ⟨r, ?_⟩
      show matchRest (a :: (A2 ++ markerChars ++ B)) = some r
      rw [matchRest, if_neg ha, hr]

/-- The exact value of the greedy continuation when the path to the marker
is newline-free and nothing after the marker contains a semicolon. -/
theorem matchRest_exact (B : List Char) (hB : ∀ c ∈ B, c ≠ ';') :
    ∀ A : List Char, (∀ c ∈ A, c ≠ '\n') →
      matchRest (A ++ markerChars ++ B) = some B := by
  intro A
  induction A with
  | nil =>
      intro _
      rw [List.nil_append]
      have htail : matchRest (['b', 'a', 's', 'e', '6', '4', ','] ++ B) = none := by
        apply matchRest_none
        intro c hc
        rcases List.mem_append.mp hc with h | h
        · intro hcs
          rw [hcs] at h
          exact absurd h (by decide)
        · exact hB c h
      have hlmB : leadMatch markerChars
          (';' :: (['b', 'a', 's', 'e', '6', '4', ','] ++ B)) = true :=
        leadMatch_append markerChars B
      have hdropB : List.drop 8 (';' :: (['b', 'a', 's', 'e', '6', '4', ','] ++ B)) = B :=
        List.drop_left markerChars B
      show matchRest (';' :: (['b', 'a', 's', 'e', '6', '4', ','] ++ B)) = some B
      rw [matchRest, if_neg (show ¬ (';' = '\n') by decide), htail]
      show tryMarker (';' :: (['b', 'a', 's', 'e', '6', '4', ','] ++ B)) = some B
      rw [tryMarker, if_pos hlmB, hdropB]
  | cons a A2 ih =>
      intro hA
      have ha : ¬ (a = '\n') := hA a (List.mem_cons_self _ _)
      show matchRest (a :: (A2 ++ markerChars ++ B)) = some B
      rw [matchRest, if_neg ha, ih (fun c hc => hA c (List.mem_cons_of_mem _ hc))]

/-- A successful greedy continuation decomposes its input as a newline-free
stretch, the marker, and the returned rest. -/
theorem matchRest_decomp :
    ∀ (l r : List Char), matchRest l = some r →
      ∃ a, l = a ++ markerChars ++ r ∧ ∀ c ∈ a, c ≠ '\n'
  | [], r => by
      intro h
      exact absurd h (by rw [matchRest]; exact Option.noConfusion)
  | c :: cs, r => by
      intro h
      rw [matchRest] at h
      cases hin : (if c = '\n' then none else matchRest cs) with
      | some r2 =>
          rw [hin] at h
          have hr : r2 = r := Option.some.inj h
          subst hr
          have hc : ¬ (c = '\n') := by
            intro hc
            rw [if_pos hc] at hin
            exact Option.noConfusion hin
          rw [if_neg hc] at hin
          obtain ⟨a, ha1, ha2⟩ := matchRest_decomp cs r2 hin
          refine ⟨c :: a, by rw [ha1]; simp [List.append_assoc], ?_⟩
          intro c2 hc2
          rcases List.mem_cons.mp hc2 with h2 | h2
          · rw [h2]; exact hc
          · exact ha2 c2 h2
      | none =>
          rw [hin] at h
          rw [tryMarker] at h
          by_cases hlm : leadMatch markerChars (c :: cs) = true
          · rw [if_pos hlm] at h
            obtain ⟨t, ht⟩ := (leadMatch_iff markerChars (c :: cs)).mp hlm
            have hdrop : (c :: cs).drop 8 = t := by
              rw [ht]
              exact List.drop_left markerChars t
            refine ⟨[], ?_, by intro c2 hc2; exact absurd hc2 (List.not_mem_nil c2)⟩
            rw [List.nil_append, ht, ← Option.some.inj h, hdrop]
          · rw [if_neg hlm] at h
            exact Option.noConfusion h

/-- Greediness: the rest returned by a successful continuation cannot itself
contain a marker occurrence reachable through non-newline characters (the
search would have preferred that deeper occurrence). -/
theorem matchRest_no_deeper :
    ∀ (l r : List Char), matchRest l = some r →
      ∀ a b, r = a ++ markerChars ++ b → (∀ c ∈ a, c ≠ '\n') → False
  | [], r => by
      intro h
      exact absurd h (by rw [matchRest]; exact Option.noConfusion)
  | c :: cs, r => by
      intro h a b hr ha
      rw [matchRest] at h
      cases hin : (if c = '\n' then none else matchRest cs) with
      | some r2 =>
          rw [hin] at h
          have hrr : r2 = r := Option.some.inj h
          subst hrr
          have hc : ¬ (c = '\n') := by
            intro hc
            rw [if_pos hc] at hin
            exact Option.noConfusion hin
          rw [if_neg hc] at hin
          exact matchRest_no_deeper cs r2 hin a b hr ha
      | none =>
          rw [hin] at h
          rw [tryMarker] at h
          by_cases hlm : leadMatch markerChars (c :: cs) = true
          · rw [if_pos hlm] at h
            obtain ⟨t, ht⟩ := (leadMatch_iff markerChars (c :: cs)).mp hlm
            have hdrop : (c :: cs).drop 8 = t := by
              rw [ht]
              exact List.drop_left markerChars t
            have hrt : r = t := by rw [← Option.some.inj h, hdrop]
            subst hrt
            have hcs : cs = ['b', 'a', 's', 'e', '6', '4', ','] ++ r := by
              have := ht
              simp only [markerChars, List.cons_append] at this
              exact (List.cons.injEq _ _ _ _).mp this |>.2
            have hc : ¬ (c = '\n') := by
              have := ht
              simp only [markerChars, List.cons_append] at this
              intro hcn
              rw [(List.cons.injEq _ _ _ _).mp this |>.1] at hcn
              exact absurd hcn (by decide)
            rw [if_neg hc] at hin
            obtain ⟨r2, hr2⟩ :=
              matchRest_isSome b (['b', 'a', 's', 'e', '6', '4', ','] ++ a)
                (by
                  intro c2 hc2
                  rcases List.mem_append.mp hc2 with h2 | h2
                  · intro hcn
                    rw [hcn] at h2
                    exact absurd h2 (by decide)
                  · exact ha c2 h2)
            rw [hcs, hr] at hin
            rw [show (['b', 'a', 's', 'e', '6', '4', ','] ++ (a ++ markerChars ++ b)) =
              (['b', 'a', 's', 'e', '6', '4', ','] ++ a) ++ markerChars ++ b by
                simp [List.append_assoc]] at hin
            rw [hin] at hr2
            exact Option.noConfusion hr2
          · rw [if_neg hlm] at h
            exact Option.noConfusion h

/-- The rest returned by a successful continuation is a fixed point of the
whole substitution. -/
theorem cleanChars_fix (l r : List Char) (h : matchRest l = some r) :
    cleanChars r = r := by
  by_cases hlm : leadMatch headChars r = true
  · obtain ⟨t, rfl⟩ := (leadMatch_iff headChars r).mp hlm
    have hdrop : (headChars ++ t).drop 11 = t := List.drop_left headChars t
    cases t with
    | nil =>
        unfold cleanChars
        rw [if_pos hlm, hdrop]
    | cons c rest =>
        by_cases hc : c = '\n'
        · unfold cleanChars
          rw [if_pos hlm, hdrop]
          simp [hc]
        · cases hmr : matchRest rest with
          | none =>
              unfold cleanChars
              rw [if_pos hlm, hdrop]
              simp [hc, hmr]
          | some r2 =>
              exfalso
              obtain ⟨a2, hrest, ha2⟩ := matchRest_decomp rest r2 hmr
              refine matchRest_no_deeper l _ h (headChars ++ c :: a2) r2 ?_ ?_
              · rw [hrest]
                simp [List.append_assoc]
              · intro c2 hc2
                rcases List.mem_append.mp hc2 with h2 | h2
                · have : ∀ x ∈ headChars, x ≠ '\n' := by decide
                  exact this c2 h2
                · rcases List.mem_cons.mp h2 with h3 | h3
                  · rw [h3]; exact hc
                  · exact ha2 c2 h3
  · unfold cleanChars
    rw [if_neg hlm]

/-- The substitution of the data-URI pattern is idempotent. -/
theorem cleanChars_idem (s : List Char) :
    cleanChars (cleanChars s) = cleanChars s := by
  by_cases hlm : leadMatch headChars s = true
  · cases hd : s.drop 11 with
    | nil =>
        have hs : cleanChars s = s := by
          unfold cleanChars
          rw [if_pos hlm, hd]
        rw [hs]
        exact hs
    | cons c rest =>
        by_cases hc : c = '\n'
        · have hs : cleanChars s = s := by
            unfold cleanChars
            rw [if_pos hlm, hd]
            simp [hc]
          rw [hs]
          exact hs
        · cases hmr : matchRest rest with
          | none =>
              have hs : cleanChars s = s := by
                unfold cleanChars
                rw [if_pos hlm, hd]
                simp [hc, hmr]
              rw [hs]
              exact hs
          | some r =>
              have hs : cleanChars s = r := by
                unfold cleanChars
                rw [if_pos hlm, hd]
                simp [hc, hmr]
              rw [hs]
              exact cleanChars_fix rest r hmr
  · have hs : cleanChars s = s := by
      unfold cleanChars
      rw [if_neg hlm]
    rw [hs]
    exact hs

/-- Characters of the standard base64 alphabet (with padding) are never a
semicolon, a newline or a colon. -/
theorem b64Char_ne (c : Char) (h : isB64Char c = true ∨ c = '=') :
    c ≠ ';' ∧ c ≠ '\n' ∧ c ≠ ':' := by
  refine ⟨?_, ?_, ?_⟩ <;> intro hc <;> rw [hc] at h <;>
    rcases h with h | h <;> exact absurd h (by decide)

/-! ## The claims -/

/-- C1: for every raw score array of length 6, the formatter produces
exactly 6 entries, the multiset of entries is exactly the pairing of
`class_labels[i]` with score `i` (scores carried exactly: `float` applied
to a Python float is the identity), and the result is sorted by probability
in descending order. -/
theorem c1_formatter_six_sorted (scores : List ℚ) (h : scores.length = 6) :
    formatPredictions scores = .ok (sortDesc (class_labels.zip scores)) ∧
    (sortDesc (class_labels.zip scores)).Perm (class_labels.zip scores) ∧
    (sortDesc (class_labels.zip scores)).length = 6 ∧
    List.Sorted descRel (sortDesc (class_labels.zip scores)) := by
  have hfmt : formatEntries scores = .ok (class_labels.zip scores) := by
    have h0 := formatFrom_ok scores 0 (by omega)
    simpa [formatEntries] using h0
  refine ⟨?_, ?_, ?_, ?_⟩
  · simp [formatPredictions, hfmt]
  · exact List.perm_insertionSort descRel _
  · rw [sortDesc, List.length_insertionSort, List.length_zip]
    rw [h]
    rfl
  · exact List.sorted_insertionSort descRel _

/-- Concrete scores for the C1 witness. -/
def scoresA : List ℚ := [1/2, 1/10, 3/10, 1/20, 2/5, 1/4]

theorem c1_witness :
    scoresA.length = 6 ∧
    (formatPredictions scoresA = .ok (sortDesc (class_labels.zip scoresA)) ∧
     (sortDesc (class_labels.zip scoresA)).Perm (class_labels.zip scoresA) ∧
     (sortDesc (class_labels.zip scoresA)).length = 6 ∧
     List.Sorted descRel (sortDesc (class_labels.zip scoresA))) :=
  ⟨rfl, c1_formatter_six_sorted scoresA rfl⟩

/-- C2: for every image the external library can return (224x224 pixels,
3 channel bytes each in `[0, 255]`), the decoder's normalization and batch
dimension produce a tensor of shape `(1, 224, 224, 3)` with every value in
`[0, 1]`. -/
theorem c2_tensor_shape_and_range (img : Image) (h : ImgWF img) :
    TensorWF (preprocess img) := by
  obtain ⟨h1, h2⟩ := h
  refine ⟨rfl, ?_⟩
  intro a ha
  have ha2 : a = normalizeImage img := by
    simpa [preprocess] using ha
  subst ha2
  constructor
  · rw [normalizeImage, List.length_map]
    exact h1
  · intro row hrow
    rw [normalizeImage, List.mem_map] at hrow
    obtain ⟨row0, hrow0, rfl⟩ := hrow
    obtain ⟨hr1, hr2⟩ := h2 row0 hrow0
    constructor
    · rw [List.length_map]
      exact hr1
    · intro px hpx
      rw [List.mem_map] at hpx
      obtain ⟨px0, hpx0, rfl⟩ := hpx
      obtain ⟨hp1, hp2⟩ := hr2 px0 hpx0
      constructor
      · rw [List.length_map]
        exact hp1
      · intro q hq
        rw [List.mem_map] at hq
        obtain ⟨v, hv, rfl⟩ := hq
        have hv255 := hp2 v hv
        constructor
        · exact div_nonneg (by exact_mod_cast Nat.zero_le v) (by norm_num)
        · rw [div_le_one (by norm_num)]
          exact_mod_cast hv255

/-- A concrete uniform 224x224 RGB image for the C2 witness. -/
def img0 : Image := List.replicate 224 (List.replicate 224 [17, 34, 51])

theorem c2_witness : ImgWF img0 ∧ TensorWF (preprocess img0) := by
  have hwf : ImgWF img0 := by
    refine ⟨by rw [img0, List.length_replicate], ?_⟩
    intro row hrow
    rw [List.eq_of_mem_replicate hrow]
    refine ⟨by rw [List.length_replicate], ?_⟩
    intro px hpx
    rw [List.eq_of_mem_replicate hpx]
    exact ⟨rfl, by decide⟩
  exact ⟨hwf, c2_tensor_shape_and_range img0 hwf⟩

/-- A trivial external image parser used by witnesses. -/
def parse0 : List Nat → Except String Image := fun _ => .ok []

/-- A trivial model used by witnesses. -/
def model0 : Tensor4 → Except String RawPred := fun _ => .ok (.direct .other)

/-- C6: a request whose body lacks `image_data`, or where it is the empty
string, gets the 500 error response built from `ValueError("Missing
image_data")`, and the model is never consulted (the response is the same
for every model). -/
theorem c6_missing_field_errors (parse : List Nat → Except String Image)
    (model : Tensor4 → Except String RawPred) (req : Request)
    (h : getField req "image_data" = none ∨
         getField req "image_data" = some (JVal.jstr "")) :
    predict parse model req = ⟨500, Body.error "Missing image_data"⟩ ∧
    ∀ model2, predict parse model req = predict parse model2 req := by
  have hg : getImageData req = .error "Missing image_data" := by
    rcases h with h | h <;> simp [getImageData, h]
  have hp : ∀ m : Tensor4 → Except String RawPred,
      predict parse m req = ⟨500, Body.error "Missing image_data"⟩ := by
    intro m
    unfold predict predictPipeline
    rw [hg]
  exact ⟨hp model, fun m2 => (hp model).trans (hp m2).symm⟩

/-- The empty request body used by the C6 witness. -/
def reqEmpty : Request := ⟨[]⟩

theorem c6_witness :
    (getField reqEmpty "image_data" = none ∨
     getField reqEmpty "image_data" = some (JVal.jstr "")) ∧
    (predict parse0 model0 reqEmpty = ⟨500, Body.error "Missing image_data"⟩ ∧
     ∀ m2, predict parse0 model0 reqEmpty = predict parse0 m2 reqEmpty) :=
  ⟨Or.inl rfl, c6_missing_field_errors parse0 model0 reqEmpty (Or.inl rfl)⟩

/-- C8: every request terminates in exactly one of the two outcomes: HTTP
200 with a `predictions` body, or HTTP 500 with an `error` body; every
failure of the decoder, the formatter or the inference call is converted at
the handler boundary into the latter. -/
theorem c8_two_terminal_outcomes (parse : List Nat → Except String Image)
    (model : Tensor4 → Except String RawPred) (req : Request) :
    ((predict parse model req).status = 200 ∧
      ∃ es, (predict parse model req).body = Body.predictions es) ∨
    ((predict parse model req).status = 500 ∧
      ∃ msg, (predict parse model req).body = Body.error msg) := by
  unfold predict
  split
  · exact Or.inl ⟨rfl, _, rfl⟩
  · exact Or.inr ⟨rfl, _, rfl⟩

/-- C10: with the model fixed, the response depends only on the
`image_data` field of the request body; all other fields are ignored. -/
theorem c10_response_depends_only_on_image_data
    (parse : List Nat → Except String Image)
    (model : Tensor4 → Except String RawPred) (req1 req2 : Request)
    (h : getField req1 "image_data" = getField req2 "image_data") :
    predict parse model req1 = predict parse model req2 := by
  have hg : getImageData req1 = getImageData req2 := by
    unfold getImageData
    rw [h]
  unfold predict predictPipeline
  rw [hg]

/-- Two requests agreeing on `image_data` but differing elsewhere, for the
C10 witness. -/
def reqA : Request := ⟨[("image_data", JVal.jstr "QUJD"), ("user", JVal.jstr "alice")]⟩

/-- See `reqA`. -/
def reqB : Request := ⟨[("image_data", JVal.jstr "QUJD"), ("session", JVal.jother true)]⟩

theorem c10_witness :
    getField reqA "image_data" = getField reqB "image_data" ∧
    predict parse0 model0 reqA = predict parse0 model0 reqB :=
  ⟨rfl, c10_response_depends_only_on_image_data parse0 model0 reqA reqB rfl⟩

/-- C4: the descending sort of the formatter is stable: for every score
array of length 6 (in particular any with equal values), the entries of the
output holding any fixed probability `p` are exactly the entries of the
index-ordered pairing holding `p`, in the same order. -/
theorem c4_sort_is_stable (scores : List ℚ) (h : scores.length = 6) (p : ℚ) :
    formatPredictions scores = .ok (sortDesc (class_labels.zip scores)) ∧
    (sortDesc (class_labels.zip scores)).filter (fun e => decide (e.2 = p)) =
      (class_labels.zip scores).filter (fun e => decide (e.2 = p)) := by
  refine ⟨(c1_formatter_six_sorted scores h).1, filter_sortDesc p _⟩

/-- The tie example from the spec, for the C4 witness. -/
def scoresB : List ℚ := [1/2, 1/2, 1/10, 1/10, 1/10, 1/10]

theorem c4_witness :
    scoresB.length = 6 ∧
    (sortDesc (class_labels.zip scoresB)).filter (fun e => decide (e.2 = 1/2)) =
      (class_labels.zip scoresB).filter (fun e => decide (e.2 = 1/2)) ∧
    (class_labels.zip scoresB).filter (fun e => decide (e.2 = 1/2)) =
      [("Comfort_fabric_conditioner", 1/2), ("Prima_noodles", 1/2)] :=
  ⟨rfl, (c4_sort_is_stable scoresB rfl (1/2)).2, by simp [scoresB, class_labels]⟩

/-- The model used by the C5 witness: a mapping without key `output_0`. -/
def modelNoKey : Tensor4 → Except String RawPred :=
  fun _ => .ok (.map [("foo", PVal.other)])

/-- C5: a mapping output without key `output_0` makes the handler return
HTTP 500 with an error message containing the word `output`; a mapping with
the key resolves to its value, and a non-mapping output is used directly. -/
theorem c5_output_key_resolution :
    (∀ (parse : List Nat → Except String Image)
       (model : Tensor4 → Except String RawPred) (req : Request) (s : String)
       (x : Tensor4) (entries : List (String × PVal)),
       getImageData req = .ok s →
       decodeToTensor parse s = .ok x →
       model x = .ok (.map entries) →
       dictGet "output_0" entries = none →
       predict parse model req =
           ⟨500, Body.error "Missing \x27output_0\x27 in prediction"⟩ ∧
         hasSub "output".data "Missing \x27output_0\x27 in prediction".data = true) ∧
    (∀ (entries : List (String × PVal)) (v : PVal),
       dictGet "output_0" entries = some v →
       resolvePreds (.map entries) = .ok v) ∧
    (∀ v : PVal, resolvePreds (.direct v) = .ok v) := by
  refine ⟨?_, ?_, ?_⟩
  · intro parse model req s x entries h1 h2 h3 h4
    refine ⟨?_, by decide⟩
    simp only [predict, predictPipeline, processPreds, resolvePreds, h1, h2, h3, h4]
  · intro entries v h
    simp only [resolvePreds, h]
  · intro v
    rfl

theorem c5_witness :
    getImageData reqA = .ok "QUJD" ∧
    decodeToTensor parse0 "QUJD" = .ok [[]] ∧
    modelNoKey [[]] = .ok (.map [("foo", PVal.other)]) ∧
    dictGet "output_0" [("foo", PVal.other)] = none ∧
    (predict parse0 modelNoKey reqA =
        ⟨500, Body.error "Missing \x27output_0\x27 in prediction"⟩ ∧
     hasSub "output".data "Missing \x27output_0\x27 in prediction".data = true) :=
  ⟨rfl, rfl, rfl, rfl,
   c5_output_key_resolution.1 parse0 modelNoKey reqA "QUJD" [[]]
     [("foo", PVal.other)] rfl rfl rfl rfl⟩

/-- C9: when the first batch row of the resolved score array is longer than
6, the out-of-range label lookup raises `IndexError`, caught at the
boundary as HTTP 500; when it is shorter than 6 the handler silently
returns HTTP 200 with only as many entries as there are scores. -/
theorem c9_length_mismatch_behaviour :
    (∀ (parse : List Nat → Except String Image)
       (model : Tensor4 → Except String RawPred) (req : Request) (s : String)
       (x : Tensor4) (row : List ℚ) (rest : List (List ℚ)),
       getImageData req = .ok s →
       decodeToTensor parse s = .ok x →
       model x = .ok (.direct (.ndarray (row :: rest))) →
       6 < row.length →
       predict parse model req = ⟨500, Body.error "list index out of range"⟩) ∧
    (∀ (parse : List Nat → Except String Image)
       (model : Tensor4 → Except String RawPred) (req : Request) (s : String)
       (x : Tensor4) (row : List ℚ) (rest : List (List ℚ)),
       getImageData req = .ok s →
       decodeToTensor parse s = .ok x →
       model x = .ok (.direct (.ndarray (row :: rest))) →
       row.length < 6 →
       (predict parse model req).status = 200 ∧
         predCount (predict parse model req) = row.length) := by
  constructor
  · intro parse model req s x row rest h1 h2 h3 hlen
    have hfmt : formatEntries row = .error "list index out of range" :=
      formatFrom_oob row 0 (by omega) (by omega)
    simp only [predict, predictPipeline, processPreds, resolvePreds, toArray,
      firstRow, formatPredictions, h1, h2, h3, hfmt]
  · intro parse model req s x row rest h1 h2 h3 hlen
    have hfmt : formatEntries row = .ok ((class_labels.drop 0).zip row) :=
      formatFrom_ok row 0 (by omega)
    rw [List.drop_zero] at hfmt
    have hpred : predict parse model req =
        ⟨200, Body.predictions (sortDesc (class_labels.zip row))⟩ := by
      simp only [predict, predictPipeline, processPreds, resolvePreds, toArray,
        firstRow, formatPredictions, h1, h2, h3, hfmt]
    rw [hpred]
    refine ⟨rfl, ?_⟩
    show (sortDesc (class_labels.zip row)).length = row.length
    rw [sortDesc, List.length_insertionSort, List.length_zip,
      show class_labels.length = 6 from rfl]
    exact inf_eq_right.mpr (le_of_lt hlen)

/-- A 7-score first row, for the C9 witness. -/
def row7 : List ℚ := [0, 0, 0, 0, 0, 0, 0]

/-- A 5-score first row, for the C9 witness. -/
def row5 : List ℚ := [1, 2, 3, 4, 5]

/-- See `row7`. -/
def modelRow7 : Tensor4 → Except String RawPred :=
  fun _ => .ok (.direct (.ndarray [row7]))

/-- See `row5`. -/
def modelRow5 : Tensor4 → Except String RawPred :=
  fun _ => .ok (.direct (.ndarray [row5]))

theorem c9_witness :
    getImageData reqA = .ok "QUJD" ∧
    decodeToTensor parse0 "QUJD" = .ok [[]] ∧
    modelRow7 [[]] = .ok (.direct (.ndarray [row7])) ∧ 6 < row7.length ∧
    predict parse0 modelRow7 reqA = ⟨500, Body.error "list index out of range"⟩ ∧
    modelRow5 [[]] = .ok (.direct (.ndarray [row5])) ∧ row5.length < 6 ∧
    (predict parse0 modelRow5 reqA).status = 200 ∧
    predCount (predict parse0 modelRow5 reqA) = row5.length :=
  ⟨rfl, rfl, rfl, by decide,
   c9_length_mismatch_behaviour.1 parse0 modelRow7 reqA "QUJD" [[]] row7 []
     rfl rfl rfl (by decide),
   rfl, by decide,
   (c9_length_mismatch_behaviour.2 parse0 modelRow5 reqA "QUJD" [[]] row5 []
     rfl rfl rfl (by decide)).1,
   (c9_length_mismatch_behaviour.2 parse0 modelRow5 reqA "QUJD" [[]] row5 []
     rfl rfl rfl (by decide)).2⟩

/-- C3: for every base64 payload `X` (characters of the standard base64
alphabet, `=` included), stripping `"data:image/png;base64," ++ X` yields
exactly `X`, stripping `X` alone leaves it unchanged, decoding both
produces identical tensors under any external image parser, and the strip
operation is idempotent on all strings. -/
theorem c3_data_uri_strip_exact (X : String)
    (hX : ∀ c ∈ X.data, isB64Char c = true ∨ c = '=') :
    cleanChars ("data:image/png;base64," ++ X).data = X.data ∧
    cleanChars X.data = X.data ∧
    (∀ parse, decodeToTensor parse ("data:image/png;base64," ++ X) =
      decodeToTensor parse X) ∧
    (∀ s : List Char, cleanChars (cleanChars s) = cleanChars s) := by
  have hB : ∀ c ∈ X.data, c ≠ ';' := fun c hc => (b64Char_ne c (hX c hc)).1
  have hsplit : ("data:image/png;base64," ++ X).data =
      headChars ++ ('p' :: (['n', 'g'] ++ (markerChars ++ X.data))) := by
    rw [String.data_append]
    have hlit : "data:image/png;base64,".data =
        headChars ++ ('p' :: (['n', 'g'] ++ markerChars)) := by decide
    rw [hlit]
    simp [List.append_assoc]
  have hA : cleanChars ("data:image/png;base64," ++ X).data = X.data := by
    rw [hsplit]
    unfold cleanChars
    rw [if_pos (leadMatch_append headChars _)]
    have hdrop : (headChars ++ ('p' :: (['n', 'g'] ++ (markerChars ++ X.data)))).drop 11 =
        'p' :: (['n', 'g'] ++ (markerChars ++ X.data)) :=
      List.drop_left headChars _
    rw [hdrop]
    have hmr : matchRest ('n' :: 'g' :: (markerChars ++ X.data)) = some X.data :=
      matchRest_exact X.data hB ['n', 'g'] (by decide)
    simp [hmr]
  have hXonly : cleanChars X.data = X.data := by
    by_cases hlm : leadMatch headChars X.data = true
    · exfalso
      obtain ⟨t, ht⟩ := (leadMatch_iff headChars X.data).mp hlm
      have hcolon : (':' : Char) ∈ X.data := by
        rw [ht]
        exact List.mem_append_left _ (by decide)
      exact (b64Char_ne ':' (hX ':' hcolon)).2.2 rfl
    · unfold cleanChars
      rw [if_neg hlm]
  refine ⟨hA, hXonly, ?_, cleanChars_idem⟩
  intro parse
  unfold decodeToTensor
  have hclean : cleanData ("data:image/png;base64," ++ X) = cleanData X := by
    unfold cleanData
    rw [hA, hXonly]
  rw [hclean]

theorem c3_witness :
    (∀ c ∈ ("QUJD" : String).data, isB64Char c = true ∨ c = '=') ∧
    (cleanChars ("data:image/png;base64," ++ "QUJD" : String).data = ("QUJD" : String).data ∧
     cleanChars ("QUJD" : String).data = ("QUJD" : String).data ∧
     (∀ parse, decodeToTensor parse ("data:image/png;base64," ++ "QUJD") =
       decodeToTensor parse "QUJD") ∧
     (∀ s : List Char, cleanChars (cleanChars s) = cleanChars s)) :=
  ⟨by decide, c3_data_uri_strip_exact "QUJD" (by decide)⟩

/-- What it means for a string to be valid base64 for the decoder of the
spec: after discarding characters outside the alphabet, it is a run of
base64 digits followed by at most two `=` pads, total length a multiple of
four. -/
def ValidBase64 (s : String) : Prop :=
  ∃ ddata pad : List Char,
    s.data.filter (fun c => isB64Char c || c = '=') = ddata ++ pad ∧
    (∀ c ∈ ddata, isB64Char c = true) ∧ (∀ c ∈ pad, c = '=') ∧
    pad.length ≤ 2 ∧ (ddata.length + pad.length) % 4 = 0

theorem b64Char_ne_pad (c : Char) (h : isB64Char c = true) : c ≠ '=' := by
  intro hc
  rw [hc] at h
  exact absurd h (by decide)

theorem takeWhile_b64 (ddata : List Char) (h : ∀ c ∈ ddata, isB64Char c = true) :
    ddata.takeWhile (fun c => c ≠ '=') = ddata :=
  List.takeWhile_eq_self_iff.mpr (fun c hc => decide_eq_true (b64Char_ne_pad c (h c hc)))

theorem takeWhile_pad (pad : List Char) (h : ∀ c ∈ pad, c = '=') :
    pad.takeWhile (fun c => c ≠ '=') = [] := by
  cases pad with
  | nil => rfl
  | cons c rest =>
      have hc := h c (List.mem_cons_self c rest)
      simp [List.takeWhile_cons, hc]

theorem dropWhile_b64 (ddata : List Char) (h : ∀ c ∈ ddata, isB64Char c = true) :
    ddata.dropWhile (fun c => c ≠ '=') = [] :=
  List.dropWhile_eq_nil_iff.mpr (fun c hc => decide_eq_true (b64Char_ne_pad c (h c hc)))

theorem dropWhile_pad (pad : List Char) (h : ∀ c ∈ pad, c = '=') :
    pad.dropWhile (fun c => c ≠ '=') = pad := by
  cases pad with
  | nil => rfl
  | cons c rest =>
      have hc := h c (List.mem_cons_self c rest)
      simp [List.dropWhile_cons, hc]

theorem b64decode_ok_iff (s : String) :
    (∃ bs, b64decode s = .ok bs) ↔ ValidBase64 s := by
  constructor
  · rintro ⟨bs, hok⟩
    simp only [b64decode] at hok
    split at hok
    case isTrue hcond =>
        rw [Bool.and_eq_true, Bool.and_eq_true] at hcond
        obtain ⟨⟨hall, hlen2⟩, hmod⟩ := hcond
        refine ⟨(s.data.filter (fun c => isB64Char c || c = '=')).takeWhile (fun c => c ≠ '='),
          (s.data.filter (fun c => isB64Char c || c = '=')).dropWhile (fun c => c ≠ '='),
          (List.takeWhile_append_dropWhile _ _).symm, ?_, ?_, ?_, ?_⟩
        · intro c hc
          have h0 := List.mem_takeWhile_imp hc
          have h1 : c ≠ '=' := of_decide_eq_true h0
          have h2 : c ∈ s.data.filter (fun c => isB64Char c || c = '=') :=
            (List.takeWhile_sublist _).subset hc
          rcases Bool.or_eq_true _ _ |>.mp (List.mem_filter.mp h2).2 with h3 | h3
          · exact h3
          · exact absurd (of_decide_eq_true h3) h1
        · intro c hc
          exact of_decide_eq_true (List.all_eq_true.mp hall c hc)
        · exact of_decide_eq_true hlen2
        · exact of_decide_eq_true hmod
    case isFalse hcond => exact Except.noConfusion hok
  · rintro ⟨ddata, pad, hsplit, hdd, hpd, hlen, hmod⟩
    refine ⟨decodeQuads ddata, ?_⟩
    have htw : (ddata ++ pad).takeWhile (fun c => c ≠ '=') = ddata := by
      rw [List.takeWhile_append, takeWhile_b64 ddata hdd, if_pos rfl,
        takeWhile_pad pad hpd, List.append_nil]
    have hdw : (ddata ++ pad).dropWhile (fun c => c ≠ '=') = pad := by
      rw [List.dropWhile_append, dropWhile_b64 ddata hdd, if_pos List.isEmpty_nil,
        dropWhile_pad pad hpd]
    simp only [b64decode]
    rw [hsplit, htw, hdw, if_pos]
    rw [Bool.and_eq_true, Bool.and_eq_true]
    exact ⟨⟨List.all_eq_true.mpr (fun c hc => decide_eq_true (hpd c hc)),
      decide_eq_true hlen⟩, decide_eq_true hmod⟩

/-- C7: the base64 decode step succeeds exactly on valid base64 input
(after discarding of foreign characters, as the library documents for
`validate=False`), and an `image_data` string that is not valid base64
after prefix stripping makes the handler return HTTP 500 with an error
body. -/
theorem c7_invalid_base64_surfaces_500 :
    (∀ s : String, (∃ bs, b64decode s = .ok bs) ↔ ValidBase64 s) ∧
    (∀ (parse : List Nat → Except String Image)
       (model : Tensor4 → Except String RawPred) (req : Request) (s : String),
       getImageData req = .ok s → ¬ ValidBase64 (cleanData s) →
       (predict parse model req).status = 500 ∧
         respErr (predict parse model req) = true) := by
  refine ⟨b64decode_ok_iff, ?_⟩
  intro parse model req s h1 h2
  cases hb : b64decode (cleanData s) with
  | ok bs => exact absurd ((b64decode_ok_iff (cleanData s)).mp ⟨bs, hb⟩) h2
  | error e =>
      have hp : predict parse model req = ⟨500, Body.error e⟩ := by
        simp only [predict, predictPipeline, decodeToTensor, h1, hb]
      rw [hp]
      exact ⟨rfl, rfl⟩

/-- A request bearing invalid base64 (`"AB"`: two data characters, no
padding), for the C7 witness. -/
def reqAB : Request := ⟨[("image_data", JVal.jstr "AB")]⟩

theorem c7_witness :
    getImageData reqAB = .ok "AB" ∧
    (predict parse0 model0 reqAB).status = 500 ∧
    respErr (predict parse0 model0 reqAB) = true :=
  ⟨rfl,
   c7_invalid_base64_surfaces_500.2 parse0 model0 reqAB "AB" rfl
     (fun hv => by
       obtain ⟨bs, hbs⟩ := (c7_invalid_base64_surfaces_500.1 (cleanData "AB")).mpr hv
       rw [show b64decode (cleanData "AB") =
         Except.error "Invalid base64-encoded string" from rfl] at hbs
       exact Except.noConfusion hbs)⟩

end ShopSmart
